import Mathlib

/-!
Shallow embedding of the agent execution loop of
`agents/executor.go` (package `agents` of langchaingo).

Go maps whose values are `any` are modelled as association lists over
`GoValue`; Go errors are modelled by the inductive `GoError`; the
side-channel effects (callback-handler notifications, planner and tool
invocations) are made explicit as an `Event` trace so that properties
about "the planner is invoked at most N times" or "no tool invocation
occurs" can be stated and proved.
-/

namespace LangchainGo

/-- Go struct `schema.AgentAction`: a requested invocation of a named tool. -/
structure AgentAction where
  tool : String
  toolInput : String
  log : String
deriving Repr, DecidableEq

/-- Go struct `schema.AgentStep`: one (action, observation) pair of the ledger. -/
structure AgentStep where
  action : AgentAction
  observation : String
deriving Repr, DecidableEq

/-- A Go `any` value as it occurs in the maps of the executor: either a string,
some non-string scalar (represented by an `Int`), or a step ledger (the
value stored under the `intermediateSteps` key). -/
inductive GoValue where
  | str (s : String)
  | int (n : Int)
  | steps (l : List AgentStep)
deriving Repr, DecidableEq

/-- Whether a `GoValue` is string-typed (the `value.(string)` type
assertion of `inputsToString` succeeds). -/
def GoValue.isString : GoValue → Bool
  | .str _ => true
  | _ => false

/-- A Go `map[string]any`, modelled as an association list. -/
abbrev GoMap := List (String × GoValue)

/-- Go struct `schema.AgentFinish`: the terminal payload of the planner. -/
structure AgentFinish where
  returnValues : GoMap
deriving Repr, DecidableEq

/-- The errors that flow through the executor. `unableToParseOutput`
carries the message of the wrapped planner error (`err.Error()`);
`toolFailure` stands for an arbitrary error returned by the `Call` of a tool;
`plannerFailure` stands for any other planner error. -/
inductive GoError where
  | notFinished
  | agentNoReturn
  | inputNotString (key : String)
  | unableToParseOutput (msg : String)
  | plannerFailure (msg : String)
  | toolFailure (msg : String)
  | repeatedAction (tool : String)
deriving Repr, DecidableEq

/-- Models `errors.Is(err, ErrUnableToParseOutput)`. -/
def errIsUnableToParse : GoError → Bool
  | .unableToParseOutput _ => true
  | _ => false

/-- Models `err.Error()`. Modelled from the spec: the message texts of the
sentinel errors (`ErrNotFinished` and friends) live in the `agents`
package error declarations, which are outside the excerpted source;
the spec only requires `ErrNotFinished` to read as a "not finished"
marker. The payload-carrying constructors return their payload. -/
def errMessage : GoError → String
  | .notFinished => "agent not finished before max iterations"
  | .agentNoReturn => "no actions or finish was returned by the agent"
  | .inputNotString key => "input key is not a string: " ++ key
  | .unableToParseOutput msg => msg
  | .plannerFailure msg => msg
  | .toolFailure msg => msg
  | .repeatedAction tool => "repeated action: " ++ tool

/-- Go interface `tools.Tool`: a named capability; `call` is `Tool.Call` minus the
context argument. -/
structure Tool where
  name : String
  call : String → Except GoError String

/-- The `map[string]tools.Tool` registry (and other Go maps with
non-`any` values), as an association list. -/
abbrev ToolRegistry := List (String × Tool)

/-- Go map assignment `m[k] = v`: overwrite the binding if the key is
present, otherwise add it. -/
def mapSet {α : Type} : List (String × α) → String → α → List (String × α)
  | [], k, v => [(k, v)]
  | (k1, v1) :: rest, k, v =>
    if k1 = k then (k1, v) :: rest else (k1, v1) :: mapSet rest k v

/-- Go map lookup `m[k]`. -/
def mapLookup {α : Type} : List (String × α) → String → Option α
  | [], _ => none
  | (k1, v1) :: rest, k => if k1 = k then some v1 else mapLookup rest k

/-- The result of one `Agent.Plan` call: `(actions, finish, err)`. -/
structure PlanOutput where
  actions : List AgentAction
  finish : Option AgentFinish
  err : Option GoError

/-- The `Agent` interface as the executor uses it: `Plan` plus
`GetTools`. -/
structure Agent where
  plan : List AgentStep → List (String × String) → PlanOutput
  tools : List Tool

/-- Go struct `ParserErrorHandler`: its `Formatter` field may be nil. -/
structure ParserErrorHandler where
  formatter : Option (String → String)

/-- The `Executor` struct. `hasCallbacksHandler` models whether
`CallbacksHandler` is non-nil (the handler itself is pure notification,
captured in the event trace); `errorHandler` models the nilable
`*ParserErrorHandler`. -/
structure Executor where
  agent : Agent
  hasCallbacksHandler : Bool
  errorHandler : Option ParserErrorHandler
  maxIterations : Int
  returnIntermediateSteps : Bool

/-- The observable side effects of one `Call`, in order. -/
inductive Event where
  | planInvoked (steps : List AgentStep)
  | actionNotified (action : AgentAction)
  | toolInvoked (name : String) (input : String)
  | finishNotified (returnValues : GoMap) (steps : List AgentStep)
deriving Repr, DecidableEq

def Event.isPlanInvoked : Event → Bool
  | .planInvoked _ => true
  | _ => false

def Event.isToolInvoked : Event → Bool
  | .toolInvoked _ _ => true
  | _ => false

def Event.isFinishNotified : Event → Bool
  | .finishNotified _ _ => true
  | _ => false

/-- Number of planner invocations recorded in a trace. -/
def countPlanInvocations (events : List Event) : Nat :=
  (events.filter Event.isPlanInvoked).length

/-- Result of `doAction`: the returned step slice, the returned error,
and the events it produced. -/
structure ActionResult where
  steps : List AgentStep
  err : Option GoError
  events : List Event
deriving Repr, DecidableEq

/-- Result of `doIteration` (and of the `Call` loop): steps, the
`finish` map (nil or not), the error, and the events. -/
structure IterResult where
  steps : List AgentStep
  finish : Option GoMap
  err : Option GoError
  events : List Event
deriving Repr, DecidableEq

/-- Result of `Call`: the outputs map (nil or not), the error, and the
events. -/
structure CallResult where
  outputs : Option GoMap
  err : Option GoError
  events : List Event
deriving Repr, DecidableEq

/-- Constant `_intermediateStepsOutputKey`. -/
def intermediateStepsOutputKey : String := "intermediateSteps"

/-- Observation appended by `checkRepeatedAction` on a repeat. -/
def repeatedActionObservation : String :=
  "ATTENTION: you are repeating the same action. Now, you have just 2 options: 1. Write the final answer. 2. Write a different action"

/-- Observation appended by `doAction` for the `none` sentinel. -/
def finalAnswerHintObservation : String :=
  "ATTENTION: write the final answer. use the format -> Final Answer: "

/-- Observation appended by `doAction` for an unresolvable tool name. -/
def invalidToolObservation (toolName : String) : String :=
  toolName ++ " is not a valid tool, try another one"

/-- The synthetic observation appended near the end of the budget. -/
def lastChanceObservation : String :=
  "\n Important: Do you have enough data to answer? Provide the final answer \n"

/-- The zero value of `schema.AgentAction` (steps appended with only an
observation set). -/
def emptyAction : AgentAction := ⟨"", "", ""⟩

/-- Models `strings.ToUpper` for the ASCII tool names the executor
compares: case folding applied structurally over the character list (so
that it evaluates by reduction). -/
def upper (s : String) : String := ⟨s.data.map Char.toUpper⟩

/-- Models `strings.ToLower`, structurally over the character list. -/
def lower (s : String) : String := ⟨s.data.map Char.toLower⟩

/-- Function `getNameToTool`: builds the registry keyed by upper-cased names;
later tools overwrite earlier ones with the same canonical name. -/
def getNameToTool (ts : List Tool) : ToolRegistry :=
  ts.foldl (fun m t => mapSet m (upper t.name) t) []

/-- Function `inputsToString`: every value must be string-typed, otherwise the
call fails with `ErrExecutorInputNotString` naming the offending key. -/
def inputsToString : GoMap → Except GoError (List (String × String))
  | [] => .ok []
  | (key, value) :: rest =>
    match value with
    | .str s =>
      match inputsToString rest with
      | .error err => .error err
      | .ok m => .ok ((key, s) :: m)
    | _ => .error (.inputNotString key)

/-- Function `getReturn`: inject the ledger under the reserved key iff
`ReturnIntermediateSteps` is set. -/
def getReturn (e : Executor) (finish : AgentFinish) (steps : List AgentStep) : GoMap :=
  if e.returnIntermediateSteps then
    mapSet finish.returnValues intermediateStepsOutputKey (.steps steps)
  else finish.returnValues

/-- The match predicate of `checkRepeatedAction`: same `Tool` and same
`ToolInput`, compared by string equality. -/
def actionMatchesStep (action : AgentAction) (step : AgentStep) : Bool :=
  step.action.tool = action.tool && step.action.toolInput = action.toolInput

/-- Function `checkRepeatedAction`: if some step of the ledger holds an action
with the same `(tool, toolInput)`, append the cautionary step and
return a `repeated action` error; otherwise return the ledger
unchanged with no error. -/
def checkRepeatedAction (steps : List AgentStep) (action : AgentAction) :
    List AgentStep × Option GoError :=
  if steps.any (actionMatchesStep action) then
    (steps ++ [⟨action, repeatedActionObservation⟩], some (.repeatedAction action.tool))
  else
    (steps, none)

/-- Function `doAction`: notify the handler, resolve the tool (upper-cased
lookup), handle the `none` sentinel and unresolvable names by appending
an explanatory step, otherwise invoke the tool; a tool error is
returned together with a nil step slice. -/
def doAction (e : Executor) (steps : List AgentStep) (nameToTool : ToolRegistry)
    (action : AgentAction) : ActionResult :=
  let notifyEvents := if e.hasCallbacksHandler then [Event.actionNotified action] else []
  match mapLookup nameToTool (upper action.tool) with
  | none =>
    if lower action.tool = "none" then
      ⟨steps ++ [⟨action, finalAnswerHintObservation⟩], none, notifyEvents⟩
    else
      ⟨steps ++ [⟨action, invalidToolObservation action.tool⟩], none, notifyEvents⟩
  | some tool =>
    match tool.call action.toolInput with
    | .error err =>
      ⟨[], some err, notifyEvents ++ [Event.toolInvoked tool.name action.toolInput]⟩
    | .ok observation =>
      ⟨steps ++ [⟨action, observation⟩], none,
        notifyEvents ++ [Event.toolInvoked tool.name action.toolInput]⟩

/-- The `for _, action := range actions` loop of `doIteration`: a
triggered repetition guard drops the rest of the batch and clears the
error; a `doAction` error aborts with that error. Returns
(steps, error, events). -/
def processActions (e : Executor) (nameToTool : ToolRegistry) :
    List AgentStep → List AgentAction → List AgentStep × Option GoError × List Event
  | steps, [] => (steps, none, [])
  | steps, action :: rest =>
    let checked := checkRepeatedAction steps action
    match checked.2 with
    | some _ => (checked.1, none, [])
    | none =>
      let r := doAction e checked.1 nameToTool action
      match r.err with
      | some err => (r.steps, some err, r.events)
      | none =>
        let rest2 := processActions e nameToTool r.steps rest
        (rest2.1, rest2.2.1, r.events ++ rest2.2.2)

/-- The `formattedObservation` computation of the parser-error recovery branch. -/
def formatObservation (handler : ParserErrorHandler) (msg : String) : String :=
  match handler.formatter with
  | some f => f msg
  | none => msg

/-- Function `doIteration`: plan, recover an unparsable-output error when a
handler is configured, reject empty plans, honour a finish (notifying
the handler first), otherwise process the action batch. -/
def doIteration (e : Executor) (steps : List AgentStep) (nameToTool : ToolRegistry)
    (inputs : List (String × String)) : IterResult :=
  let planned := e.agent.plan steps inputs
  let planEvents := [Event.planInvoked steps]
  match planned.err with
  | some err =>
    match e.errorHandler with
    | some handler =>
      if errIsUnableToParse err then
        ⟨steps ++ [⟨emptyAction, formatObservation handler (errMessage err)⟩],
          none, none, planEvents⟩
      else
        ⟨steps, none, some err, planEvents⟩
    | none => ⟨steps, none, some err, planEvents⟩
  | none =>
    if planned.actions.isEmpty && planned.finish.isNone then
      ⟨steps, none, some .agentNoReturn, planEvents⟩
    else
      match planned.finish with
      | some fin =>
        let finishEvents :=
          if e.hasCallbacksHandler then [Event.finishNotified fin.returnValues steps] else []
        ⟨steps, some (getReturn e fin steps), none, planEvents ++ finishEvents⟩
      | none =>
        let r := processActions e nameToTool steps planned.actions
        ⟨r.1, none, r.2.1, planEvents ++ r.2.2⟩

/-- The `for i := 0; i < e.MaxIterations; i++` loop of `Call`,
structured as fuel plus the current index `i`. An iteration that
produced a finish or an error returns it; otherwise the "last chance"
step is appended when `MaxIterations > 2 && i == MaxIterations-2` and
the loop continues. -/
def callLoop (e : Executor) (nameToTool : ToolRegistry) (inputs : List (String × String)) :
    Nat → Nat → List AgentStep → IterResult
  | 0, _, steps => ⟨steps, none, none, []⟩
  | fuel + 1, i, steps =>
    let r := doIteration e steps nameToTool inputs
    if r.finish.isSome || r.err.isSome then
      r
    else
      let steps2 :=
        if 2 < e.maxIterations ∧ (i : Int) = e.maxIterations - 2 then
          r.steps ++ [⟨emptyAction, lastChanceObservation⟩]
        else r.steps
      let rest := callLoop e nameToTool inputs fuel (i + 1) steps2
      ⟨rest.steps, rest.finish, rest.err, r.events ++ rest.events⟩

/-- Function `Executor.Call`: validate the inputs, build the registry, run the
loop; on exhaustion notify the handler with the synthetic "not
finished" finish and return `getReturn` of an empty finish together
with `ErrNotFinished`. -/
def call (e : Executor) (inputValues : GoMap) : CallResult :=
  match inputsToString inputValues with
  | .error err => ⟨none, some err, []⟩
  | .ok inputs =>
    let nameToTool := getNameToTool e.agent.tools
    let r := callLoop e nameToTool inputs e.maxIterations.toNat 0 []
    if r.finish.isSome || r.err.isSome then
      ⟨r.finish, r.err, r.events⟩
    else
      let finishEvents :=
        if e.hasCallbacksHandler then
          [Event.finishNotified [("output", .str (errMessage .notFinished))] r.steps]
        else []
      ⟨some (getReturn e ⟨[]⟩ r.steps), some .notFinished, r.events ++ finishEvents⟩

/-! Concrete planners, tools and executor configurations used in the
examples below. -/

/-- A planner that returns neither actions nor a finish. -/
def idlePlanner : List AgentStep → List (String × String) → PlanOutput :=
  fun _ _ => ⟨[], none, none⟩

/-- A planner that always requests the same unregistered tool. -/
def fooPlanner : List AgentStep → List (String × String) → PlanOutput :=
  fun _ _ => ⟨[⟨"foo", "x", ""⟩], none, none⟩

/-- A planner that immediately finishes with output `Paris`. -/
def finishPlanner : List AgentStep → List (String × String) → PlanOutput :=
  fun _ _ => ⟨[], some ⟨[("output", .str "Paris")]⟩, none⟩

/-- A planner whose output cannot be parsed. -/
def unparsablePlanner : List AgentStep → List (String × String) → PlanOutput :=
  fun _ _ => ⟨[], none, some (.unableToParseOutput "bad output")⟩

/-- A planner that always requests the registered failing tool. -/
def boomPlanner : List AgentStep → List (String × String) → PlanOutput :=
  fun _ _ => ⟨[⟨"boom", "now", ""⟩], none, none⟩

/-- A tool whose invocation always fails. -/
def boomTool : Tool := ⟨"boom", fun _ => .error (.toolFailure "tool exploded")⟩

/-- A tool registered under the sentinel name `none`. -/
def noneTool : Tool := ⟨"none", fun input => .ok ("invoked with " ++ input)⟩

/-- Executor with no tools, no handlers, the default budget of 15. -/
def baseExecutor : Executor := ⟨⟨idlePlanner, []⟩, false, none, 15, false⟩

/-- Executor whose planner repeats the same action, budget 3. -/
def repeatExecutor : Executor := ⟨⟨fooPlanner, []⟩, false, none, 3, false⟩

/-- Executor that exhausts its budget of 1 with
`returnIntermediateSteps` set and a callbacks handler configured. -/
def notFinishedExecutor : Executor := ⟨⟨fooPlanner, []⟩, true, none, 1, true⟩

/-- Executor whose only tool fails when invoked. -/
def toolErrorExecutor : Executor := ⟨⟨boomPlanner, [boomTool]⟩, false, none, 1, false⟩

/-- Executor whose planner finishes at once. -/
def finishExecutor : Executor := ⟨⟨finishPlanner, []⟩, false, none, 15, false⟩

/-- Executor with a parser-error handler whose formatter prefixes the
message. -/
def recoveryExecutor : Executor :=
  ⟨⟨unparsablePlanner, []⟩, false, some ⟨some (fun s => "could not parse: " ++ s)⟩, 15, false⟩

/-- Executor with an unparsable planner and no error handler. -/
def noHandlerExecutor : Executor := ⟨⟨unparsablePlanner, []⟩, false, none, 15, false⟩

/-- Executor with a tool registered under the name `none`. -/
def noneToolExecutor : Executor := ⟨⟨idlePlanner, [noneTool]⟩, false, none, 15, false⟩

/-- Executor with a zero iteration budget and a callbacks handler. -/
def zeroBudgetExecutor : Executor := ⟨⟨idlePlanner, []⟩, true, none, 0, false⟩

/-! Helper lemmas. -/

theorem ledgerGrows_self (l : List AgentStep) : l <+: l := ⟨[], by simp⟩

theorem ledgerGrows_app (l t : List AgentStep) : l <+: l ++ t := ⟨t, rfl⟩

theorem ledgerGrows_trans {a b c : List AgentStep} (h1 : a <+: b) (h2 : b <+: c) :
    a <+: c := by
  obtain ⟨t1, ht1⟩ := h1
  obtain ⟨t2, ht2⟩ := h2
  exact ⟨t1 ++ t2, by rw [← List.append_assoc, ht1, ht2]⟩

theorem countPlan_append (a b : List Event) :
    countPlanInvocations (a ++ b) = countPlanInvocations a + countPlanInvocations b := by
  simp [countPlanInvocations, List.filter_append]

theorem countPlan_doAction (e : Executor) (steps : List AgentStep) (ntt : ToolRegistry)
    (action : AgentAction) : countPlanInvocations (doAction e steps ntt action).events = 0 := by
  unfold doAction
  cases mapLookup ntt (upper action.tool) with
  | none =>
    by_cases h : lower action.tool = "none" <;>
      by_cases hc : e.hasCallbacksHandler <;>
        simp [h, hc, countPlanInvocations, Event.isPlanInvoked]
  | some tool =>
    cases hcall : tool.call action.toolInput <;>
      by_cases hc : e.hasCallbacksHandler <;>
        simp [hcall, hc, countPlanInvocations, Event.isPlanInvoked]

theorem countPlan_processActions (e : Executor) (ntt : ToolRegistry) :
    ∀ (acts : List AgentAction) (steps : List AgentStep),
      countPlanInvocations (processActions e ntt steps acts).2.2 = 0 := by
  intro acts
  induction acts with
  | nil => intro steps; simp [processActions, countPlanInvocations]
  | cons a rest ih =>
    intro steps
    simp only [processActions]
    cases hr : (checkRepeatedAction steps a).2 with
    | some e2 => simp [countPlanInvocations]
    | none =>
      cases hd : (doAction e (checkRepeatedAction steps a).1 ntt a).err with
      | some err2 => simpa using countPlan_doAction e (checkRepeatedAction steps a).1 ntt a
      | none => simp [countPlan_append, countPlan_doAction, ih]

theorem countPlan_doIteration (e : Executor) (steps : List AgentStep) (ntt : ToolRegistry)
    (inputs : List (String × String)) :
    countPlanInvocations (doIteration e steps ntt inputs).events = 1 := by
  unfold doIteration
  cases hp : e.agent.plan steps inputs with
  | mk acts fin err =>
    cases err with
    | some err =>
      cases e.errorHandler with
      | none => simp [countPlanInvocations, Event.isPlanInvoked]
      | some handler =>
        by_cases hu : errIsUnableToParse err <;>
          simp [hu, countPlanInvocations, Event.isPlanInvoked]
    | none =>
      cases fin with
      | some f =>
        by_cases hc : e.hasCallbacksHandler <;>
          simp [hc, countPlan_append, countPlanInvocations, Event.isPlanInvoked]
      | none =>
        have h0 := countPlan_processActions e ntt acts steps
        cases hacts : acts.isEmpty with
        | true => simp [hacts, countPlanInvocations, Event.isPlanInvoked]
        | false =>
          simp [hacts, countPlan_append, countPlanInvocations, Event.isPlanInvoked] at h0 ⊢
          exact h0

theorem countPlan_callLoop (e : Executor) (ntt : ToolRegistry)
    (inputs : List (String × String)) :
    ∀ (fuel i : Nat) (steps : List AgentStep),
      countPlanInvocations (callLoop e ntt inputs fuel i steps).events ≤ fuel := by
  intro fuel
  induction fuel with
  | zero => intro i steps; simp [callLoop, countPlanInvocations]
  | succ f ih =>
    intro i steps
    simp only [callLoop]
    by_cases hEnd : ((doIteration e steps ntt inputs).finish.isSome
        || (doIteration e steps ntt inputs).err.isSome)
    · simp [hEnd, countPlan_doIteration]
    · simp only [hEnd, Bool.false_eq_true, not_false_eq_true, if_false]
      rw [countPlan_append, countPlan_doIteration]
      split
      · have h1 := ih (i + 1)
          ((doIteration e steps ntt inputs).steps ++ [⟨emptyAction, lastChanceObservation⟩])
        omega
      · have h1 := ih (i + 1) (doIteration e steps ntt inputs).steps
        omega

theorem countPlan_callLoop_pos (e : Executor) (ntt : ToolRegistry)
    (inputs : List (String × String)) (fuel i : Nat) (steps : List AgentStep) :
    1 ≤ countPlanInvocations (callLoop e ntt inputs (fuel + 1) i steps).events := by
  simp only [callLoop]
  by_cases hEnd : ((doIteration e steps ntt inputs).finish.isSome
      || (doIteration e steps ntt inputs).err.isSome)
  · simp [hEnd, countPlan_doIteration]
  · simp only [hEnd, Bool.false_eq_true, not_false_eq_true, if_false]
    rw [countPlan_append, countPlan_doIteration]
    omega

theorem inputsToString_ok_of_strings :
    ∀ (iv : GoMap), (∀ p ∈ iv, p.2.isString = true) →
      ∃ m, inputsToString iv = .ok m := by
  intro iv
  induction iv with
  | nil => intro _; exact ⟨[], rfl⟩
  | cons p rest ih =>
    intro h
    obtain ⟨key, value⟩ := p
    cases value with
    | str s =>
      obtain ⟨m, hm⟩ := ih (fun q hq => h q (List.mem_cons_of_mem _ hq))
      exact ⟨(key, s) :: m, by simp [inputsToString, hm]⟩
    | int n => exact absurd (h (key, .int n) (List.mem_cons_self _ _)) (by simp [GoValue.isString])
    | steps l =>
      exact absurd (h (key, .steps l) (List.mem_cons_self _ _)) (by simp [GoValue.isString])

theorem inputsToString_error_of_nonstring :
    ∀ (iv : GoMap), (∃ p ∈ iv, p.2.isString = false) →
      ∃ key, inputsToString iv = .error (.inputNotString key) := by
  intro iv
  induction iv with
  | nil => rintro ⟨p, hp, _⟩; cases hp
  | cons q rest ih =>
    rintro ⟨p, hp, hps⟩
    obtain ⟨key, value⟩ := q
    cases value with
    | str s =>
      rcases List.mem_cons.mp hp with heq | hmem
      · subst heq; simp [GoValue.isString] at hps
      · obtain ⟨k, hk⟩ := ih ⟨p, hmem, hps⟩
        exact ⟨k, by simp [inputsToString, hk]⟩
    | int n => exact ⟨key, rfl⟩
    | steps l => exact ⟨key, rfl⟩

theorem doIteration_finish_eq (e : Executor) (steps : List AgentStep) (ntt : ToolRegistry)
    (inputs : List (String × String)) (acts : List AgentAction) (fin : AgentFinish)
    (hplan : e.agent.plan steps inputs = ⟨acts, some fin, none⟩) :
    doIteration e steps ntt inputs =
      ⟨steps, some (getReturn e fin steps), none,
        Event.planInvoked steps ::
          (if e.hasCallbacksHandler then [Event.finishNotified fin.returnValues steps] else [])⟩ := by
  simp [doIteration, hplan]

theorem doIteration_actions_eq (e : Executor) (steps : List AgentStep) (ntt : ToolRegistry)
    (inputs : List (String × String)) (action : AgentAction) (rest : List AgentAction)
    (hplan : e.agent.plan steps inputs = ⟨action :: rest, none, none⟩) :
    doIteration e steps ntt inputs =
      ⟨(processActions e ntt steps (action :: rest)).1, none,
        (processActions e ntt steps (action :: rest)).2.1,
        Event.planInvoked steps :: (processActions e ntt steps (action :: rest)).2.2⟩ := by
  simp [doIteration, hplan]

theorem doIteration_recovered_eq (e : Executor) (steps : List AgentStep) (ntt : ToolRegistry)
    (inputs : List (String × String)) (acts : List AgentAction) (fin : Option AgentFinish)
    (err : GoError) (handler : ParserErrorHandler)
    (hplan : e.agent.plan steps inputs = ⟨acts, fin, some err⟩)
    (hh : e.errorHandler = some handler) (hu : errIsUnableToParse err = true) :
    doIteration e steps ntt inputs =
      ⟨steps ++ [⟨emptyAction, formatObservation handler (errMessage err)⟩], none, none,
        [Event.planInvoked steps]⟩ := by
  simp [doIteration, hplan, hh, hu]

theorem doIteration_fatal_eq (e : Executor) (steps : List AgentStep) (ntt : ToolRegistry)
    (inputs : List (String × String)) (acts : List AgentAction) (fin : Option AgentFinish)
    (err : GoError) (hplan : e.agent.plan steps inputs = ⟨acts, fin, some err⟩)
    (hh : e.errorHandler = none) :
    doIteration e steps ntt inputs = ⟨steps, none, some err, [Event.planInvoked steps]⟩ := by
  simp [doIteration, hplan, hh]

theorem checkRepeated_ledger (steps : List AgentStep) (action : AgentAction) :
    steps <+: (checkRepeatedAction steps action).1 := by
  unfold checkRepeatedAction
  split
  · exact ledgerGrows_app _ _
  · exact ledgerGrows_self _

theorem doAction_ledger (e : Executor) (steps : List AgentStep) (ntt : ToolRegistry)
    (action : AgentAction) (h : (doAction e steps ntt action).err = none) :
    steps <+: (doAction e steps ntt action).steps := by
  unfold doAction at h ⊢
  cases hl : mapLookup ntt (upper action.tool) with
  | none =>
    by_cases hn : lower action.tool = "none" <;>
      · simp only [hl, hn, if_true, if_false]
        exact ledgerGrows_app _ _
  | some tool =>
    rw [hl] at h
    cases hcall : tool.call action.toolInput with
    | error err => simp [hcall] at h
    | ok obs =>
      simp only [hcall]
      exact ledgerGrows_app _ _

theorem processActions_ledger (e : Executor) (ntt : ToolRegistry) :
    ∀ (acts : List AgentAction) (steps : List AgentStep),
      (processActions e ntt steps acts).2.1 = none →
      steps <+: (processActions e ntt steps acts).1 := by
  intro acts
  induction acts with
  | nil => intro steps _; exact ledgerGrows_self _
  | cons a rest ih =>
    intro steps
    simp only [processActions]
    cases hr : (checkRepeatedAction steps a).2 with
    | some e2 => intro _; exact checkRepeated_ledger steps a
    | none =>
      cases hd : (doAction e (checkRepeatedAction steps a).1 ntt a).err with
      | some err2 => intro h; simp at h
      | none =>
        intro h
        have h1 := doAction_ledger e (checkRepeatedAction steps a).1 ntt a hd
        have h2 := ih (doAction e (checkRepeatedAction steps a).1 ntt a).steps (by simpa using h)
        exact ledgerGrows_trans (checkRepeated_ledger steps a) (ledgerGrows_trans h1 h2)

theorem doIteration_ledger (e : Executor) (steps : List AgentStep) (ntt : ToolRegistry)
    (inputs : List (String × String)) (h : (doIteration e steps ntt inputs).err = none) :
    steps <+: (doIteration e steps ntt inputs).steps := by
  revert h
  unfold doIteration
  cases hp : e.agent.plan steps inputs with
  | mk acts fin errOpt =>
    cases errOpt with
    | some err =>
      cases hh : e.errorHandler with
      | some handler =>
        by_cases hu : errIsUnableToParse err
        · intro _
          simp only [hu, if_true]
          exact ledgerGrows_app _ _
        · intro h; simp [hu] at h
      | none => intro h; simp at h
    | none =>
      cases fin with
      | some f =>
        intro _
        simp only [Option.isNone_some, Bool.and_false, Bool.false_eq_true, if_false]
        exact ledgerGrows_self _
      | none =>
        cases hacts : acts.isEmpty with
        | true =>
          intro h
          have hnil : acts = [] := by simpa using hacts
          simp [hnil] at h
        | false =>
          intro h
          have hnil : ¬(acts = []) := by simpa using hacts
          simp only [hacts, Bool.false_and, Bool.false_eq_true, if_false]
          exact processActions_ledger e ntt acts steps (by simpa [hnil] using h)

theorem callLoop_ledger (e : Executor) (ntt : ToolRegistry)
    (inputs : List (String × String)) :
    ∀ (fuel i : Nat) (steps : List AgentStep),
      (callLoop e ntt inputs fuel i steps).err = none →
      steps <+: (callLoop e ntt inputs fuel i steps).steps := by
  intro fuel
  induction fuel with
  | zero => intro i steps _; exact ledgerGrows_self _
  | succ f ih =>
    intro i steps h
    simp only [callLoop] at h ⊢
    by_cases hEnd : ((doIteration e steps ntt inputs).finish.isSome
        || (doIteration e steps ntt inputs).err.isSome)
    · rw [if_pos hEnd] at h ⊢
      exact doIteration_ledger e steps ntt inputs h
    · rw [if_neg hEnd] at h ⊢
      have hIterErr : (doIteration e steps ntt inputs).err = none := by
        cases h2 : (doIteration e steps ntt inputs).err with
        | none => rfl
        | some v => exact absurd (by simp [h2]) hEnd
      have h1 := doIteration_ledger e steps ntt inputs hIterErr
      by_cases hc : (2 < e.maxIterations ∧ (i : Int) = e.maxIterations - 2)
      · rw [if_pos hc] at h ⊢
        have h2 := ih (i + 1)
          ((doIteration e steps ntt inputs).steps ++ [⟨emptyAction, lastChanceObservation⟩])
          (by exact h)
        exact ledgerGrows_trans h1 (ledgerGrows_trans (ledgerGrows_app _ _) h2)
      · rw [if_neg hc] at h ⊢
        have h2 := ih (i + 1) (doIteration e steps ntt inputs).steps (by exact h)
        exact ledgerGrows_trans h1 h2

theorem mapLookup_mapSet {α : Type} :
    ∀ (m : List (String × α)) (k : String) (v : α), mapLookup (mapSet m k v) k = some v := by
  intro m
  induction m with
  | nil => intro k v; simp [mapSet, mapLookup]
  | cons q rest ih =>
    intro k v
    obtain ⟨k1, v1⟩ := q
    by_cases hk : k1 = k
    · simp [mapSet, mapLookup, hk]
    · simp [mapSet, mapLookup, hk, ih]

theorem processActions_repeat_eq (e : Executor) (ntt : ToolRegistry) (steps : List AgentStep)
    (action : AgentAction) (rest : List AgentAction)
    (h : steps.any (actionMatchesStep action) = true) :
    processActions e ntt steps (action :: rest)
      = (steps ++ [⟨action, repeatedActionObservation⟩], none, []) := by
  simp [processActions, checkRepeatedAction, h]

theorem doIteration_repeat_eq (e : Executor) (ntt : ToolRegistry)
    (inputs : List (String × String)) (steps : List AgentStep) (action : AgentAction)
    (rest : List AgentAction)
    (hplan : e.agent.plan steps inputs = ⟨action :: rest, none, none⟩)
    (h : steps.any (actionMatchesStep action) = true) :
    doIteration e steps ntt inputs
      = ⟨steps ++ [⟨action, repeatedActionObservation⟩], none, none,
          [Event.planInvoked steps]⟩ := by
  rw [doIteration_actions_eq e steps ntt inputs action rest hplan,
    processActions_repeat_eq e ntt steps action rest h]

theorem callLoop_succ_eq (e : Executor) (ntt : ToolRegistry)
    (inputs : List (String × String)) (fuel i : Nat) (steps : List AgentStep) :
    callLoop e ntt inputs (fuel + 1) i steps =
      if ((doIteration e steps ntt inputs).finish.isSome
          || (doIteration e steps ntt inputs).err.isSome) then
        doIteration e steps ntt inputs
      else
        ⟨(callLoop e ntt inputs fuel (i + 1)
            (if 2 < e.maxIterations ∧ (i : Int) = e.maxIterations - 2 then
              (doIteration e steps ntt inputs).steps ++ [⟨emptyAction, lastChanceObservation⟩]
            else (doIteration e steps ntt inputs).steps)).steps,
          (callLoop e ntt inputs fuel (i + 1)
            (if 2 < e.maxIterations ∧ (i : Int) = e.maxIterations - 2 then
              (doIteration e steps ntt inputs).steps ++ [⟨emptyAction, lastChanceObservation⟩]
            else (doIteration e steps ntt inputs).steps)).finish,
          (callLoop e ntt inputs fuel (i + 1)
            (if 2 < e.maxIterations ∧ (i : Int) = e.maxIterations - 2 then
              (doIteration e steps ntt inputs).steps ++ [⟨emptyAction, lastChanceObservation⟩]
            else (doIteration e steps ntt inputs).steps)).err,
          (doIteration e steps ntt inputs).events ++
            (callLoop e ntt inputs fuel (i + 1)
              (if 2 < e.maxIterations ∧ (i : Int) = e.maxIterations - 2 then
                (doIteration e steps ntt inputs).steps ++ [⟨emptyAction, lastChanceObservation⟩]
              else (doIteration e steps ntt inputs).steps)).events⟩ := rfl

theorem callLoop_two_invocations (e : Executor) (ntt : ToolRegistry)
    (inputs : List (String × String)) (fuel i : Nat) (steps : List AgentStep)
    (hfin : (doIteration e steps ntt inputs).finish = none)
    (herr : (doIteration e steps ntt inputs).err = none) :
    2 ≤ countPlanInvocations (callLoop e ntt inputs (fuel + 2) i steps).events := by
  rw [callLoop_succ_eq, if_neg (by simp [hfin, herr])]
  simp only [countPlan_append, countPlan_doIteration]
  split
  · have h1 := countPlan_callLoop_pos e ntt inputs fuel (i + 1)
      ((doIteration e steps ntt inputs).steps ++ [⟨emptyAction, lastChanceObservation⟩])
    omega
  · have h1 := countPlan_callLoop_pos e ntt inputs fuel (i + 1)
      (doIteration e steps ntt inputs).steps
    omega

theorem callLoop_finish_eq (e : Executor) (ntt : ToolRegistry)
    (inputs : List (String × String)) (steps : List AgentStep) (acts : List AgentAction)
    (fin : AgentFinish) (fuel i : Nat)
    (hplan : e.agent.plan steps inputs = ⟨acts, some fin, none⟩) :
    callLoop e ntt inputs (fuel + 1) i steps =
      ⟨steps, some (getReturn e fin steps), none,
        Event.planInvoked steps ::
          (if e.hasCallbacksHandler then [Event.finishNotified fin.returnValues steps] else [])⟩ := by
  have hIter := doIteration_finish_eq e steps ntt inputs acts fin hplan
  simp [callLoop, hIter]

theorem doAction_invalid_eq (e : Executor) (steps : List AgentStep) (ntt : ToolRegistry)
    (action : AgentAction) (h1 : mapLookup ntt (upper action.tool) = none)
    (h2 : ¬(lower action.tool = "none")) :
    doAction e steps ntt action
      = ⟨steps ++ [⟨action, invalidToolObservation action.tool⟩], none,
          if e.hasCallbacksHandler then [Event.actionNotified action] else []⟩ := by
  simp [doAction, h1, h2]

theorem doAction_sentinel_eq (e : Executor) (steps : List AgentStep) (ntt : ToolRegistry)
    (action : AgentAction) (h1 : mapLookup ntt (upper action.tool) = none)
    (h2 : lower action.tool = "none") :
    doAction e steps ntt action
      = ⟨steps ++ [⟨action, finalAnswerHintObservation⟩], none,
          if e.hasCallbacksHandler then [Event.actionNotified action] else []⟩ := by
  simp [doAction, h1, h2]

theorem doAction_fail_eq (e : Executor) (steps : List AgentStep) (ntt : ToolRegistry)
    (action : AgentAction) (tool : Tool) (err : GoError)
    (h1 : mapLookup ntt (upper action.tool) = some tool)
    (h2 : tool.call action.toolInput = .error err) :
    doAction e steps ntt action
      = ⟨[], some err,
          (if e.hasCallbacksHandler then [Event.actionNotified action] else [])
            ++ [Event.toolInvoked tool.name action.toolInput]⟩ := by
  simp [doAction, h1, h2]

theorem doAction_ok_eq (e : Executor) (steps : List AgentStep) (ntt : ToolRegistry)
    (action : AgentAction) (tool : Tool) (obs : String)
    (h1 : mapLookup ntt (upper action.tool) = some tool)
    (h2 : tool.call action.toolInput = .ok obs) :
    doAction e steps ntt action
      = ⟨steps ++ [⟨action, obs⟩], none,
          (if e.hasCallbacksHandler then [Event.actionNotified action] else [])
            ++ [Event.toolInvoked tool.name action.toolInput]⟩ := by
  simp [doAction, h1, h2]

theorem callLoop_toolfail_eq (e : Executor) (ntt : ToolRegistry)
    (inputs : List (String × String)) (steps : List AgentStep) (action : AgentAction)
    (rest : List AgentAction) (tool : Tool) (err : GoError) (fuel i : Nat)
    (hplan : e.agent.plan steps inputs = ⟨action :: rest, none, none⟩)
    (hrep : steps.any (actionMatchesStep action) = false)
    (hlook : mapLookup ntt (upper action.tool) = some tool)
    (hcall : tool.call action.toolInput = .error err) :
    callLoop e ntt inputs (fuel + 1) i steps
      = ⟨[], none, some err,
          Event.planInvoked steps ::
            ((if e.hasCallbacksHandler then [Event.actionNotified action] else [])
              ++ [Event.toolInvoked tool.name action.toolInput])⟩ := by
  have hpa : processActions e ntt steps (action :: rest)
      = ([], some err,
          (if e.hasCallbacksHandler then [Event.actionNotified action] else [])
            ++ [Event.toolInvoked tool.name action.toolInput]) := by
    simp [processActions, checkRepeatedAction, hrep,
      doAction_fail_eq e steps ntt action tool err hlook hcall]
  have hIter := doIteration_actions_eq e steps ntt inputs action rest hplan
  rw [hpa] at hIter
  rw [callLoop_succ_eq, hIter]
  simp

/-! Claim theorems. -/

/-- C1 (amended): when the planner returns an action whose
`(tool, toolInput)` pair string-equals that of some step already in the
Ledger, the executor appends exactly one cautionary Step, skips the
remaining actions of the same batch, and ends the current iteration
with no error and no finish; contrary to the original claim the loop is
not terminated for this Call: given remaining budget, at least one
further planner invocation occurs. -/
theorem repeatedAction_soft_stop :
    (∀ (e : Executor) (ntt : ToolRegistry) (steps : List AgentStep) (action : AgentAction)
        (rest : List AgentAction), steps.any (actionMatchesStep action) = true →
        processActions e ntt steps (action :: rest)
          = (steps ++ [⟨action, repeatedActionObservation⟩], none, []))
    ∧ (∀ (e : Executor) (ntt : ToolRegistry) (inputs : List (String × String))
        (steps : List AgentStep) (action : AgentAction) (rest : List AgentAction),
        e.agent.plan steps inputs = ⟨action :: rest, none, none⟩ →
        steps.any (actionMatchesStep action) = true →
        doIteration e steps ntt inputs
          = ⟨steps ++ [⟨action, repeatedActionObservation⟩], none, none,
              [Event.planInvoked steps]⟩)
    ∧ (∀ (e : Executor) (ntt : ToolRegistry) (inputs : List (String × String))
        (steps : List AgentStep) (action : AgentAction) (rest : List AgentAction)
        (fuel i : Nat),
        e.agent.plan steps inputs = ⟨action :: rest, none, none⟩ →
        steps.any (actionMatchesStep action) = true →
        2 ≤ countPlanInvocations (callLoop e ntt inputs (fuel + 2) i steps).events) := by
  refine ⟨processActions_repeat_eq, ?_, ?_⟩
  · intro e ntt inputs steps action rest hplan h
    exact doIteration_repeat_eq e ntt inputs steps action rest hplan h
  · intro e ntt inputs steps action rest fuel i hplan h
    exact callLoop_two_invocations e ntt inputs fuel i steps
      (by rw [doIteration_repeat_eq e ntt inputs steps action rest hplan h])
      (by rw [doIteration_repeat_eq e ntt inputs steps action rest hplan h])

/-- C1 counterexample: with a budget of 3 and a planner that always
returns the same unregistered action, the repetition is observed while
handling the second planner response, yet the Call does not stop there
with an errorless empty result: the planner is invoked a third time and
the Call ends with the NotFinished error. -/
theorem repeatedAction_claim_counterexample :
    (call repeatExecutor []).err = some GoError.notFinished
    ∧ countPlanInvocations (call repeatExecutor []).events = 3 := by
  constructor
  · decide
  · decide

/-- C1 witness: the amended theorem applied to a concrete ledger that
already contains the repeated action, and to the concrete looping
executor. -/
theorem repeatedAction_soft_stop_witness :
    processActions baseExecutor [] [⟨⟨"calc", "2+2", ""⟩, "4"⟩]
        [⟨"calc", "2+2", ""⟩, ⟨"other", "y", ""⟩]
      = ([⟨⟨"calc", "2+2", ""⟩, "4"⟩, ⟨⟨"calc", "2+2", ""⟩, repeatedActionObservation⟩],
          none, [])
    ∧ 2 ≤ countPlanInvocations
        (callLoop repeatExecutor [] [] 3 0
          [⟨⟨"foo", "x", ""⟩, invalidToolObservation "foo"⟩]).events :=
  ⟨repeatedAction_soft_stop.1 baseExecutor [] [⟨⟨"calc", "2+2", ""⟩, "4"⟩] ⟨"calc", "2+2", ""⟩
      [⟨"other", "y", ""⟩] (by decide),
    repeatedAction_soft_stop.2.2 repeatExecutor [] []
      [⟨⟨"foo", "x", ""⟩, invalidToolObservation "foo"⟩] ⟨"foo", "x", ""⟩ [] 1 0 rfl (by decide)⟩

/-- C2: whenever the planner returns a Finish (with no error), the loop
returns in that same iteration with no error; the outputs are the
return values of the Finish, augmented with the ledger under the
reserved key `intermediateSteps` iff `returnIntermediateSteps` is true;
exactly one planner invocation happens in the rest of the loop, even if
actions were returned alongside the Finish. -/
theorem finish_ends_call :
    (∀ (e : Executor) (ntt : ToolRegistry) (inputs : List (String × String))
        (steps : List AgentStep) (acts : List AgentAction) (fin : AgentFinish) (fuel i : Nat),
        e.agent.plan steps inputs = ⟨acts, some fin, none⟩ →
        callLoop e ntt inputs (fuel + 1) i steps =
          ⟨steps,
            some (if e.returnIntermediateSteps then
                mapSet fin.returnValues intermediateStepsOutputKey (.steps steps)
              else fin.returnValues),
            none,
            Event.planInvoked steps ::
              (if e.hasCallbacksHandler then [Event.finishNotified fin.returnValues steps]
                else [])⟩)
    ∧ (∀ (e : Executor) (inputValues : GoMap) (inputs : List (String × String))
        (acts : List AgentAction) (fin : AgentFinish),
        inputsToString inputValues = .ok inputs →
        e.agent.plan [] inputs = ⟨acts, some fin, none⟩ →
        1 ≤ e.maxIterations →
        (call e inputValues).err = none
        ∧ (call e inputValues).outputs
            = some (if e.returnIntermediateSteps then
                mapSet fin.returnValues intermediateStepsOutputKey (.steps [])
              else fin.returnValues)
        ∧ countPlanInvocations (call e inputValues).events = 1) := by
  constructor
  · intro e ntt inputs steps acts fin fuel i hplan
    rw [callLoop_finish_eq e ntt inputs steps acts fin fuel i hplan]
    simp [getReturn]
  · intro e inputValues inputs acts fin hok hplan hmax
    obtain ⟨f, hf⟩ : ∃ f, e.maxIterations.toNat = f + 1 :=
      ⟨e.maxIterations.toNat - 1, by omega⟩
    have hcall : call e inputValues = ⟨some (getReturn e fin []), none,
        Event.planInvoked [] ::
          (if e.hasCallbacksHandler then [Event.finishNotified fin.returnValues []] else [])⟩ := by
      simp only [call, hok, hf,
        callLoop_finish_eq e (getNameToTool e.agent.tools) inputs [] acts fin f 0 hplan]
      simp
    rw [hcall]
    refine ⟨rfl, by simp [getReturn], ?_⟩
    by_cases hc : e.hasCallbacksHandler <;>
      simp [hc, countPlanInvocations, Event.isPlanInvoked]

/-- C2 witness: a planner that finishes at once with output `Paris`
produces exactly those outputs, no error, one planner invocation. -/
theorem finish_ends_call_witness :
    (call finishExecutor []).err = none
    ∧ (call finishExecutor []).outputs = some [("output", GoValue.str "Paris")]
    ∧ countPlanInvocations (call finishExecutor []).events = 1 := by
  have h := finish_ends_call.2 finishExecutor [] [] []
    ⟨[("output", GoValue.str "Paris")]⟩ rfl rfl (by decide)
  exact ⟨h.1, h.2.1, h.2.2⟩

/-- C3: for every configuration and every Call invocation, the number
of planner invocations recorded in the trace is bounded by
`maxIterations` (its non-negative part); actions do not count, only
iterations do. -/
theorem planner_invocation_bound (e : Executor) (inputValues : GoMap) :
    countPlanInvocations (call e inputValues).events ≤ e.maxIterations.toNat := by
  cases hok : inputsToString inputValues with
  | error err => simp [call, hok, countPlanInvocations]
  | ok inputs =>
    simp only [call, hok]
    by_cases hEnd : (((callLoop e (getNameToTool e.agent.tools) inputs
          e.maxIterations.toNat 0 []).finish.isSome
        || (callLoop e (getNameToTool e.agent.tools) inputs
          e.maxIterations.toNat 0 []).err.isSome) = true)
    · simp only [hEnd, if_true]
      exact countPlan_callLoop e (getNameToTool e.agent.tools) inputs e.maxIterations.toNat 0 []
    · simp only [hEnd, Bool.false_eq_true, if_false]
      simp only [countPlan_append]
      have h1 := countPlan_callLoop e (getNameToTool e.agent.tools) inputs
        e.maxIterations.toNat 0 []
      have h2 : countPlanInvocations
          (if e.hasCallbacksHandler then
            [Event.finishNotified [("output", .str (errMessage .notFinished))]
              (callLoop e (getNameToTool e.agent.tools) inputs
                e.maxIterations.toNat 0 []).steps]
          else []) = 0 := by
        by_cases hc : e.hasCallbacksHandler <;>
          simp [hc, countPlanInvocations, Event.isPlanInvoked]
      omega

/-- C4 (amended): when the loop exhausts its budget without a Finish
and without an error, Call returns the NotFinished error; the outputs
map is empty when `returnIntermediateSteps` is false, but when it is
true the final ledger is exposed under the `intermediateSteps` key even
on this error path; the configured Observer receives one onFinish
notification whose return values carry the not-finished marker. -/
theorem notFinished_return (e : Executor) (inputValues : GoMap)
    (inputs : List (String × String)) (r : IterResult)
    (hok : inputsToString inputValues = .ok inputs)
    (hloop : callLoop e (getNameToTool e.agent.tools) inputs e.maxIterations.toNat 0 [] = r)
    (hfin : r.finish = none) (herr : r.err = none) :
    (call e inputValues).err = some GoError.notFinished
    ∧ (call e inputValues).outputs
        = some (if e.returnIntermediateSteps then
            [(intermediateStepsOutputKey, GoValue.steps r.steps)] else [])
    ∧ (e.hasCallbacksHandler = true →
        (call e inputValues).events
          = r.events ++ [Event.finishNotified
              [("output", .str (errMessage .notFinished))] r.steps]) := by
  have hcall : call e inputValues = ⟨some (getReturn e ⟨[]⟩ r.steps), some .notFinished,
      r.events ++ (if e.hasCallbacksHandler then
        [Event.finishNotified [("output", .str (errMessage .notFinished))] r.steps]
      else [])⟩ := by
    simp only [call, hok, hloop, hfin, herr]
    simp
  rw [hcall]
  refine ⟨rfl, ?_, fun hc => by simp [hc]⟩
  by_cases hris : e.returnIntermediateSteps <;> simp [hris, getReturn, mapSet]

/-- C4 counterexample: with `returnIntermediateSteps` set and an
exhausted budget, the outputs on the NotFinished error path are not the
empty map: they expose the ledger under the reserved key. -/
theorem notFinished_claim_counterexample :
    (call notFinishedExecutor []).err = some GoError.notFinished
    ∧ (call notFinishedExecutor []).outputs ≠ some []
    ∧ (call notFinishedExecutor []).outputs ≠ none := by
  refine ⟨by decide, by decide, by decide⟩

/-- C4 witness: the amended theorem applied to the concrete
budget-1 executor whose planner never finishes. -/
theorem notFinished_return_witness :
    (call notFinishedExecutor []).err = some GoError.notFinished
    ∧ (call notFinishedExecutor []).outputs
        = some [(intermediateStepsOutputKey,
            GoValue.steps [⟨⟨"foo", "x", ""⟩, invalidToolObservation "foo"⟩])]
    ∧ (call notFinishedExecutor []).events
        = [Event.planInvoked [], Event.actionNotified ⟨"foo", "x", ""⟩,
            Event.finishNotified [("output", .str (errMessage .notFinished))]
              [⟨⟨"foo", "x", ""⟩, invalidToolObservation "foo"⟩]] := by
  have h := notFinished_return notFinishedExecutor [] []
    ⟨[⟨⟨"foo", "x", ""⟩, invalidToolObservation "foo"⟩], none, none,
      [Event.planInvoked [], Event.actionNotified ⟨"foo", "x", ""⟩]⟩ rfl rfl rfl rfl
  exact ⟨h.1, by simpa using h.2.1, by simpa using h.2.2 rfl⟩

/-- C5 (amended): within a Call the ledger only grows across
operations that do not abort with an error: `checkRepeatedAction`
always extends it, and `doAction`, `doIteration` and the Call loop
extend it whenever they return no error; contrary to the full claim, a
failing tool invocation aborts with a nil step slice (see the
counterexample). -/
theorem ledger_extension :
    (∀ (steps : List AgentStep) (action : AgentAction),
        steps <+: (checkRepeatedAction steps action).1)
    ∧ (∀ (e : Executor) (steps : List AgentStep) (ntt : ToolRegistry) (action : AgentAction),
        (doAction e steps ntt action).err = none →
        steps <+: (doAction e steps ntt action).steps)
    ∧ (∀ (e : Executor) (steps : List AgentStep) (ntt : ToolRegistry)
        (inputs : List (String × String)),
        (doIteration e steps ntt inputs).err = none →
        steps <+: (doIteration e steps ntt inputs).steps)
    ∧ (∀ (e : Executor) (ntt : ToolRegistry) (inputs : List (String × String))
        (fuel i : Nat) (steps : List AgentStep),
        (callLoop e ntt inputs fuel i steps).err = none →
        steps <+: (callLoop e ntt inputs fuel i steps).steps) :=
  ⟨checkRepeated_ledger, doAction_ledger, doIteration_ledger, callLoop_ledger⟩

/-- C5 counterexample: a failing tool invocation returns a nil step
slice from `doAction`; the prior ledger is not a prefix of it. -/
theorem ledger_extension_counterexample :
    (doAction toolErrorExecutor [⟨⟨"x", "y", ""⟩, "obs"⟩] (getNameToTool [boomTool])
        ⟨"boom", "now", ""⟩).steps = []
    ∧ ¬ ([⟨⟨"x", "y", ""⟩, "obs"⟩] <+:
        (doAction toolErrorExecutor [⟨⟨"x", "y", ""⟩, "obs"⟩] (getNameToTool [boomTool])
          ⟨"boom", "now", ""⟩).steps) := by
  have h0 : (doAction toolErrorExecutor [⟨⟨"x", "y", ""⟩, "obs"⟩] (getNameToTool [boomTool])
      ⟨"boom", "now", ""⟩).steps = [] := by decide
  refine ⟨h0, fun hpre => ?_⟩
  obtain ⟨t, ht⟩ := hpre
  rw [h0] at ht
  simp at ht

/-- C5 witness: the amended theorem applied at concrete states of each
operation. -/
theorem ledger_extension_witness :
    [] <+: (checkRepeatedAction [] ⟨"a", "b", ""⟩).1
    ∧ [] <+: (doAction baseExecutor [] [] ⟨"t", "u", ""⟩).steps
    ∧ [] <+: (doIteration finishExecutor [] [] []).steps
    ∧ [] <+: (callLoop finishExecutor [] [] 1 0 []).steps :=
  ⟨ledger_extension.1 [] ⟨"a", "b", ""⟩,
    ledger_extension.2.1 baseExecutor [] [] ⟨"t", "u", ""⟩ rfl,
    ledger_extension.2.2.1 finishExecutor [] [] [] rfl,
    ledger_extension.2.2.2 finishExecutor [] [] 1 0 [] rfl⟩

/-- C6: an unparsable-output planner failure is recovered when an error
handler is configured — the message (formatted by the formatter via
`formatObservation`) is appended as a Step with an empty Action, nobody
is notified, no error is propagated, and the loop continues (a further
planner invocation occurs given remaining budget); without a handler
the failure is fatal: `doIteration` propagates it, and the Call returns
it with nil outputs. -/
theorem unparsable_recovery :
    (∀ (e : Executor) (ntt : ToolRegistry) (inputs : List (String × String))
        (steps : List AgentStep) (acts : List AgentAction) (fin : Option AgentFinish)
        (err : GoError) (handler : ParserErrorHandler),
        e.agent.plan steps inputs = ⟨acts, fin, some err⟩ →
        e.errorHandler = some handler → errIsUnableToParse err = true →
        doIteration e steps ntt inputs
          = ⟨steps ++ [⟨emptyAction, formatObservation handler (errMessage err)⟩],
              none, none, [Event.planInvoked steps]⟩)
    ∧ (∀ (e : Executor) (ntt : ToolRegistry) (inputs : List (String × String))
        (steps : List AgentStep) (acts : List AgentAction) (fin : Option AgentFinish)
        (err : GoError) (handler : ParserErrorHandler) (fuel i : Nat),
        e.agent.plan steps inputs = ⟨acts, fin, some err⟩ →
        e.errorHandler = some handler → errIsUnableToParse err = true →
        2 ≤ countPlanInvocations (callLoop e ntt inputs (fuel + 2) i steps).events)
    ∧ (∀ (e : Executor) (ntt : ToolRegistry) (inputs : List (String × String))
        (steps : List AgentStep) (acts : List AgentAction) (fin : Option AgentFinish)
        (err : GoError),
        e.agent.plan steps inputs = ⟨acts, fin, some err⟩ →
        e.errorHandler = none → errIsUnableToParse err = true →
        doIteration e steps ntt inputs = ⟨steps, none, some err, [Event.planInvoked steps]⟩)
    ∧ (∀ (e : Executor) (inputValues : GoMap) (inputs : List (String × String))
        (acts : List AgentAction) (fin : Option AgentFinish) (err : GoError),
        inputsToString inputValues = .ok inputs →
        e.agent.plan [] inputs = ⟨acts, fin, some err⟩ →
        errIsUnableToParse err = true → e.errorHandler = none →
        1 ≤ e.maxIterations →
        call e inputValues = ⟨none, some err, [Event.planInvoked []]⟩) := by
  refine ⟨?_, ?_, ?_, ?_⟩
  · intro e ntt inputs steps acts fin err handler hplan hh hu
    exact doIteration_recovered_eq e steps ntt inputs acts fin err handler hplan hh hu
  · intro e ntt inputs steps acts fin err handler fuel i hplan hh hu
    exact callLoop_two_invocations e ntt inputs fuel i steps
      (by rw [doIteration_recovered_eq e steps ntt inputs acts fin err handler hplan hh hu])
      (by rw [doIteration_recovered_eq e steps ntt inputs acts fin err handler hplan hh hu])
  · intro e ntt inputs steps acts fin err hplan hh _
    exact doIteration_fatal_eq e steps ntt inputs acts fin err hplan hh
  · intro e inputValues inputs acts fin err hok hplan _ hh hmax
    obtain ⟨f, hf⟩ : ∃ f, e.maxIterations.toNat = f + 1 :=
      ⟨e.maxIterations.toNat - 1, by omega⟩
    have hIter := doIteration_fatal_eq e [] (getNameToTool e.agent.tools) inputs acts fin err
      hplan hh
    have hloop : callLoop e (getNameToTool e.agent.tools) inputs (f + 1) 0 []
        = ⟨[], none, some err, [Event.planInvoked []]⟩ := by
      rw [callLoop_succ_eq, hIter]
      simp
    simp only [call, hok, hf, hloop]
    simp

/-- C6 witness: the claim theorem applied to the concrete recovering
executor (formatter prefixes the message) and to the concrete
handler-less executor. -/
theorem unparsable_recovery_witness :
    doIteration recoveryExecutor [] [] []
      = ⟨[⟨emptyAction, "could not parse: bad output"⟩], none, none, [Event.planInvoked []]⟩
    ∧ call noHandlerExecutor []
      = ⟨none, some (GoError.unableToParseOutput "bad output"), [Event.planInvoked []]⟩ := by
  constructor
  · have h := unparsable_recovery.1 recoveryExecutor [] [] [] [] none
      (GoError.unableToParseOutput "bad output")
      ⟨some (fun s => "could not parse: " ++ s)⟩ rfl rfl rfl
    simpa [formatObservation, errMessage] using h
  · exact unparsable_recovery.2.2.2 noHandlerExecutor [] [] [] none
      (GoError.unableToParseOutput "bad output") rfl rfl rfl rfl (by decide)

/-- C7: an action whose tool name (matched case-insensitively) is not
in the registry and is not the `none` sentinel makes `doAction` append
exactly one explanatory Step and continue with no error; whereas a
resolved tool whose invocation fails makes the whole Call loop abort
at once, propagating that error unchanged with a nil finish (no
outputs). -/
theorem invalid_tool_logged_tool_error_fatal :
    (∀ (e : Executor) (steps : List AgentStep) (ntt : ToolRegistry) (action : AgentAction),
        mapLookup ntt (upper action.tool) = none → ¬(lower action.tool = "none") →
        doAction e steps ntt action
          = ⟨steps ++ [⟨action, invalidToolObservation action.tool⟩], none,
              if e.hasCallbacksHandler then [Event.actionNotified action] else []⟩)
    ∧ (∀ (e : Executor) (steps : List AgentStep) (ntt : ToolRegistry) (action : AgentAction)
        (tool : Tool) (err : GoError),
        mapLookup ntt (upper action.tool) = some tool →
        tool.call action.toolInput = .error err →
        doAction e steps ntt action
          = ⟨[], some err,
              (if e.hasCallbacksHandler then [Event.actionNotified action] else [])
                ++ [Event.toolInvoked tool.name action.toolInput]⟩)
    ∧ (∀ (e : Executor) (ntt : ToolRegistry) (inputs : List (String × String))
        (steps : List AgentStep) (action : AgentAction) (rest : List AgentAction)
        (tool : Tool) (err : GoError) (fuel i : Nat),
        e.agent.plan steps inputs = ⟨action :: rest, none, none⟩ →
        steps.any (actionMatchesStep action) = false →
        mapLookup ntt (upper action.tool) = some tool →
        tool.call action.toolInput = .error err →
        (callLoop e ntt inputs (fuel + 1) i steps).err = some err
        ∧ (callLoop e ntt inputs (fuel + 1) i steps).finish = none) := by
  refine ⟨doAction_invalid_eq, doAction_fail_eq, ?_⟩
  intro e ntt inputs steps action rest tool err fuel i hplan hrep hlook hcall
  rw [callLoop_toolfail_eq e ntt inputs steps action rest tool err fuel i hplan hrep hlook hcall]
  exact ⟨rfl, rfl⟩

/-- C7 witness: the claim theorem applied to an unregistered tool name
(step logged, no abort) and to the concrete failing tool (error
propagated unchanged, nil finish). -/
theorem invalid_tool_logged_tool_error_fatal_witness :
    doAction baseExecutor [] [] ⟨"fooTool", "q", ""⟩
      = ⟨[⟨⟨"fooTool", "q", ""⟩, invalidToolObservation "fooTool"⟩], none, []⟩
    ∧ (callLoop toolErrorExecutor (getNameToTool [boomTool]) [] 1 0 []).err
        = some (GoError.toolFailure "tool exploded")
    ∧ (callLoop toolErrorExecutor (getNameToTool [boomTool]) [] 1 0 []).finish = none := by
  refine ⟨?_, ?_, ?_⟩
  · exact invalid_tool_logged_tool_error_fatal.1 baseExecutor [] [] ⟨"fooTool", "q", ""⟩
      rfl (by decide)
  · exact (invalid_tool_logged_tool_error_fatal.2.2 toolErrorExecutor
      (getNameToTool [boomTool]) [] [] ⟨"boom", "now", ""⟩ [] boomTool
      (GoError.toolFailure "tool exploded") 0 0 rfl rfl rfl rfl).1
  · exact (invalid_tool_logged_tool_error_fatal.2.2 toolErrorExecutor
      (getNameToTool [boomTool]) [] [] ⟨"boom", "now", ""⟩ [] boomTool
      (GoError.toolFailure "tool exploded") 0 0 rfl rfl rfl rfl).2

/-- C8: if any input value is not string-typed, Call fails with an
InputNotString error naming an offending key, with nil outputs and an
empty event trace — no planner and no tool invocation has happened. -/
theorem input_validation_first (e : Executor) (inputValues : GoMap)
    (h : ∃ p ∈ inputValues, p.2.isString = false) :
    ∃ key, call e inputValues = ⟨none, some (.inputNotString key), []⟩ := by
  obtain ⟨k, hk⟩ := inputsToString_error_of_nonstring inputValues h
  exact ⟨k, by simp [call, hk]⟩

/-- C8 witness: the claim theorem applied to a map holding a non-string
value. -/
theorem input_validation_first_witness :
    ∃ key, call baseExecutor [("k", GoValue.int 0)]
      = ⟨none, some (.inputNotString key), []⟩ :=
  input_validation_first baseExecutor [("k", GoValue.int 0)]
    ⟨("k", GoValue.int 0), by simp, rfl⟩

/-- C9: registry lookup precedes the `none` sentinel check — a resolved
tool (whatever its name, e.g. one registered under `none`) is invoked
normally, last-registered tools win the case-insensitive resolution,
and the sentinel Step is appended only when the lookup fails. -/
theorem registry_precedes_sentinel :
    (∀ (e : Executor) (steps : List AgentStep) (ntt : ToolRegistry) (action : AgentAction)
        (tool : Tool) (obs : String),
        mapLookup ntt (upper action.tool) = some tool →
        tool.call action.toolInput = .ok obs →
        doAction e steps ntt action
          = ⟨steps ++ [⟨action, obs⟩], none,
              (if e.hasCallbacksHandler then [Event.actionNotified action] else [])
                ++ [Event.toolInvoked tool.name action.toolInput]⟩)
    ∧ (∀ (ts : List Tool) (tool : Tool) (action : AgentAction),
        upper action.tool = upper tool.name →
        mapLookup (getNameToTool (ts ++ [tool])) (upper action.tool) = some tool)
    ∧ (∀ (e : Executor) (steps : List AgentStep) (ntt : ToolRegistry) (action : AgentAction),
        mapLookup ntt (upper action.tool) = none → lower action.tool = "none" →
        doAction e steps ntt action
          = ⟨steps ++ [⟨action, finalAnswerHintObservation⟩], none,
              if e.hasCallbacksHandler then [Event.actionNotified action] else []⟩) := by
  refine ⟨doAction_ok_eq, ?_, doAction_sentinel_eq⟩
  intro ts tool action hup
  rw [hup]
  have hfold : getNameToTool (ts ++ [tool])
      = mapSet (getNameToTool ts) (upper tool.name) tool := by
    simp [getNameToTool, List.foldl_append]
  rw [hfold, mapLookup_mapSet]

/-- C9 witness: with a tool registered under the name `none`, an action
named `NONE` invokes that tool normally; the sentinel Step appears only
when no tool resolves. -/
theorem registry_precedes_sentinel_witness :
    doAction noneToolExecutor [] (getNameToTool [noneTool]) ⟨"NONE", "x", ""⟩
      = ⟨[⟨⟨"NONE", "x", ""⟩, "invoked with x"⟩], none, [Event.toolInvoked "none" "x"]⟩
    ∧ mapLookup (getNameToTool ([] ++ [noneTool])) (upper (AgentAction.mk "NONE" "x" "").tool)
        = some noneTool
    ∧ doAction baseExecutor [] [] ⟨"None", "z", ""⟩
      = ⟨[⟨⟨"None", "z", ""⟩, finalAnswerHintObservation⟩], none, []⟩ := by
  refine ⟨?_, ?_, ?_⟩
  · exact registry_precedes_sentinel.1 noneToolExecutor [] (getNameToTool [noneTool])
      ⟨"NONE", "x", ""⟩ noneTool "invoked with x" rfl rfl
  · exact registry_precedes_sentinel.2.1 [] noneTool ⟨"NONE", "x", ""⟩ (by decide)
  · exact registry_precedes_sentinel.2.2 baseExecutor [] [] ⟨"None", "z", ""⟩ rfl (by decide)

/-- C10: with a non-positive `maxIterations` and all-string inputs,
Call invokes neither the planner nor any tool, returns the NotFinished
error at once, and the configured Observer still receives exactly one
onFinish notification carrying the not-finished marker over the empty
ledger. -/
theorem zero_budget_short_circuit (e : Executor) (inputValues : GoMap)
    (hmax : e.maxIterations ≤ 0) (hstr : ∀ p ∈ inputValues, p.2.isString = true)
    (hc : e.hasCallbacksHandler = true) :
    (call e inputValues).err = some GoError.notFinished
    ∧ countPlanInvocations (call e inputValues).events = 0
    ∧ (call e inputValues).events.filter Event.isToolInvoked = []
    ∧ (call e inputValues).events
        = [Event.finishNotified [("output", .str (errMessage .notFinished))] []] := by
  obtain ⟨m, hm⟩ := inputsToString_ok_of_strings inputValues hstr
  have hz : e.maxIterations.toNat = 0 := by omega
  have hcall : call e inputValues
      = ⟨some (getReturn e ⟨[]⟩ []), some .notFinished,
          [Event.finishNotified [("output", .str (errMessage .notFinished))] []]⟩ := by
    simp only [call, hm, hz, callLoop, hc]
    simp
  rw [hcall]
  exact ⟨rfl, by simp [countPlanInvocations, Event.isPlanInvoked],
    by simp [Event.isToolInvoked], rfl⟩

/-- C10 witness: the claim theorem applied to the concrete zero-budget
executor with a string input. -/
theorem zero_budget_short_circuit_witness :
    (call zeroBudgetExecutor [("input", GoValue.str "hi")]).err = some GoError.notFinished
    ∧ countPlanInvocations (call zeroBudgetExecutor [("input", GoValue.str "hi")]).events = 0
    ∧ (call zeroBudgetExecutor [("input", GoValue.str "hi")]).events.filter
        Event.isToolInvoked = []
    ∧ (call zeroBudgetExecutor [("input", GoValue.str "hi")]).events
        = [Event.finishNotified [("output", .str (errMessage .notFinished))] []] :=
  zero_budget_short_circuit zeroBudgetExecutor [("input", GoValue.str "hi")]
    (by decide) (by decide) rfl

end LangchainGo
